import Mathlib

/-!
Verification of the tf-telemetry core against its specification.

This file gives a shallow embedding of the repository's core components:

* the per-key token-bucket rate limiter (`internal/middleware/ratelimit.go`,
  backed by `golang.org/x/time/rate`),
* basic-auth credential validation with constant-time comparison
  (`internal/middleware/auth.go`, backed by `crypto/subtle`),
* the ingestion sender's validation pipeline and document fan-out
  (`internal/ingest/sender.go`): packet-size check, UUIDv7 identifier
  checks, per-log-entry context-size check, document mapping and the
  fire-and-forget indexing dispatch,
* the pure rate-limit normalization tail of `config.Load`
  (`internal/config/config.go`).

Modelling conventions:

* Go `float64` quantities (token counts, rates, timestamps) are modelled as
  `Rat`.  Every property proved here only exercises same-instant bucket
  arithmetic on small integers, where float and rational arithmetic agree
  exactly.
* Go machine integers are modelled as `Int` (config fields, sizes) or `Nat`
  (byte values, lengths); no arithmetic here can overflow 64 bits.
* Go byte strings (`[]byte`, credential strings) are modelled as `List Nat`
  with entries understood to be below 256.
* `time.Time` is modelled as a rational timestamp in seconds; the Go zero
  time is `0`.
* External library calls whose semantics the repository does not define are
  abstracted as explicit function parameters: `proto.Size` becomes a
  `protoSize` parameter, `base64.StdEncoding.DecodeString` a `decode`
  parameter, `json.Marshal` success a `marshalOk` oracle, and
  `esutil.BulkIndexer.Add`'s error result an `addErr` oracle.
* Mutation through pointers becomes explicit state passing: each call
  returns the updated state next to its Go return value.  Effects that Go
  performs through the logger and the bulk indexer are reified as traces
  (a list of enqueued `(index, document)` items and a list of log events).
-/

/-! ## Token bucket (`golang.org/x/time/rate.Limiter`)

The bucket state mirrors the fields of `rate.Limiter` that the repository
exercises: the refill rate (`limit`), the capacity (`burst`), the current
token count and the time of the last state update.  `lastEvent`, which only
matters for reservations and cancellation, is omitted: the repository only
ever calls `Allow`. -/

structure TokenLimiter where
  limit : Rat
  burst : Int
  tokens : Rat
  last : Rat
deriving DecidableEq, Repr

/-- `rate.NewLimiter(r, b)`: a fresh bucket carries zero tokens and the Go
zero time; the first `advance` then fills it up to `burst`. -/
def newTokenLimiter (r : Rat) (b : Int) : TokenLimiter :=
  { limit := r, burst := b, tokens := 0, last := 0 }

/-- `(*rate.Limiter).advance`: the token count after refilling from
`lim.last` to time `t`, clamped to the burst capacity. -/
def TokenLimiter.advanceTokens (lim : TokenLimiter) (t : Rat) : Rat :=
  let last := if t < lim.last then t else lim.last
  let tokens := lim.tokens + (t - last) * lim.limit
  if (lim.burst : Rat) < tokens then (lim.burst : Rat) else tokens

/-- `(*rate.Limiter).Allow` at instant `t`, i.e. `reserveN(t, 1, 0)`:
with a zero rate only the stored burst is consumed; otherwise one token is
consumed exactly when the bucket holds at least one token after refill and
`1 <= burst`.  The Go infinite rate `rate.Inf` has no rational counterpart
and is never produced by this repository's configuration path.  State is
updated only on an admitted request, as in the library. -/
def TokenLimiter.allowAt (lim : TokenLimiter) (t : Rat) : Bool × TokenLimiter :=
  if lim.limit = 0 then
    if 1 ≤ lim.burst then (true, { lim with burst := lim.burst - 1 })
    else (false, lim)
  else
    let tokens := lim.advanceTokens t - 1
    if 1 ≤ lim.burst ∧ 0 ≤ tokens then
      (true, { lim with tokens := tokens, last := t })
    else (false, lim)

/-! ## Middleware rate limiter (`internal/middleware/ratelimit.go`) -/

/-- `config.RateLimitConfig`. -/
structure RateLimitConfig where
  enabled : Bool
  requestsPerSecond : Rat
  burst : Int
deriving DecidableEq, Repr

/-- `middleware.RateLimiter`: configured rate and burst plus the shared
key-to-bucket map, modelled as a function into `Option`. -/
structure RateLimiter where
  limit : Rat
  burst : Int
  limiters : String → Option TokenLimiter

/-- `middleware.NewRateLimiter`: `nil` (here `none`) when disabled or the
configured rate is not positive, otherwise an empty per-key map. -/
def NewRateLimiter (cfg : RateLimitConfig) : Option RateLimiter :=
  if ¬ cfg.enabled ∨ cfg.requestsPerSecond ≤ 0 then none
  else some { limit := cfg.requestsPerSecond
              burst := cfg.burst
              limiters := fun _ => none }

/-- `(*RateLimiter).limiterForKey`: look the bucket up under the lock,
creating and inserting a fresh one on first use.  Returns the bucket next
to the (possibly extended) map state. -/
def RateLimiter.limiterForKey (r : RateLimiter) (key : String) :
    TokenLimiter × RateLimiter :=
  match r.limiters key with
  | some lim => (lim, r)
  | none =>
      let lim := newTokenLimiter r.limit r.burst
      (lim, { r with limiters := fun k => if k = key then some lim else r.limiters k })

/-- The key normalization inlined in `(*RateLimiter).Allow`: an empty key is
replaced by the fixed sentinel. -/
def normalizeKey (key : String) : String :=
  if key = "" then "missing-installation-id" else key

/-- `(*RateLimiter).Allow` on a possibly-nil receiver at instant `t`.
A nil receiver or a non-positive stored rate admits unconditionally;
otherwise the normalized key's bucket decides, and its updated state is
written back to the map (in Go this happens through the shared pointer). -/
def RateLimiter.Allow (ro : Option RateLimiter) (key : String) (t : Rat) :
    Bool × Option RateLimiter :=
  match ro with
  | none => (true, none)
  | some r =>
      if r.limit ≤ 0 then (true, some r)
      else
        let nkey := normalizeKey key
        let (lim, r1) := r.limiterForKey nkey
        let (ok, lim2) := lim.allowAt t
        (ok, some { r1 with limiters := fun k => if k = nkey then some lim2 else r1.limiters k })

/-- `n` consecutive `Allow` calls with one key at one instant; the list of
boolean outcomes in call order. -/
def allowRepeat (ro : Option RateLimiter) (key : String) (t : Rat) :
    Nat → List Bool
  | 0 => []
  | n + 1 =>
      let (b, ro2) := RateLimiter.Allow ro key t
      b :: allowRepeat ro2 key t n

/-- The limiter state after a sequence of `Allow` calls with a fixed key at
the given instants. -/
def applyCalls (ro : Option RateLimiter) (key : String) :
    List Rat → Option RateLimiter
  | [] => ro
  | t :: ts => applyCalls (RateLimiter.Allow ro key t).snd key ts

/-- Outcomes of a sequence of `Allow` calls with arbitrary keys and
instants. -/
def allowSeqResults (ro : Option RateLimiter) :
    List (String × Rat) → List Bool
  | [] => []
  | (k, t) :: rest =>
      let (b, ro2) := RateLimiter.Allow ro k t
      b :: allowSeqResults ro2 rest

/-- The pure rate-limit normalization tail of `config.Load`
(`internal/config/config.go`, after unmarshalling): an enabled limiter with
non-positive rate is a configuration error, and a zero burst is defaulted
to one second's worth of requests, `int(math.Ceil(rps))`. -/
def loadRateLimitDefaults (rl : RateLimitConfig) : Except String RateLimitConfig :=
  if rl.enabled then
    if rl.requestsPerSecond ≤ 0 then
      .error "rate limit enabled but requests_per_second not set"
    else if rl.burst = 0 then
      .ok { rl with burst := ⌈rl.requestsPerSecond⌉ }
    else .ok rl
  else .ok rl

/-! ## Basic auth (`internal/middleware/auth.go` and `crypto/subtle`)

Go byte strings are modelled as `List Nat`.  `base64.StdEncoding
.DecodeString` is standard-library code outside this repository and enters
as an abstract `decode` parameter. -/

/-- `config.BasicAuthConfig`; credential strings as byte lists. -/
structure BasicAuthConfig where
  enabled : Bool
  username : List Nat
  password : List Nat

/-- The loop of `subtle.ConstantTimeCompare`, instrumented with an
iteration count: it accumulates the bitwise OR of the XORs of the byte
pairs and also returns how many byte steps it executed. -/
def constantTimeLoop : List Nat → List Nat → Nat → Nat × Nat
  | [], _, v => (v, 0)
  | _ :: _, [], v => (v, 0)
  | a :: xs, b :: ys, v =>
      let (w, c) := constantTimeLoop xs ys (v ||| (a ^^^ b))
      (w, c + 1)

/-- `subtle.ConstantTimeCompare`, instrumented: the first component is the
Go return value (1 on equal byte strings of equal length, else 0), the
second the number of byte-comparison steps executed — the cost model for
the constant-time property.  On unequal lengths Go returns 0 before the
loop. -/
def constantTimeCompare (x y : List Nat) : Nat × Nat :=
  if x.length = y.length then
    let (v, c) := constantTimeLoop x y 0
    ((if v = 0 then 1 else 0), c)
  else (0, 0)

/-- `middleware.credentialsMatch`: both fields compared through
`subtle.ConstantTimeCompare`; `&&` is Go's short-circuit conjunction. -/
def credentialsMatch (username password : List Nat) (cfg : BasicAuthConfig) : Bool :=
  ((constantTimeCompare username cfg.username).1 == 1) &&
    ((constantTimeCompare password cfg.password).1 == 1)

/-- The byte form of the header tag `"Basic "`. -/
def basicTagBytes : List Nat := [66, 97, 115, 105, 99, 32]

/-- `strings.SplitN(s, ":", 2)` restricted to the two-part outcome: `none`
when `s` holds no colon (byte 58), otherwise the bytes before the first
colon next to everything after it. -/
def splitFirstColon (s : List Nat) : Option (List Nat × List Nat) :=
  if s.contains 58 then
    some (s.takeWhile (fun b => b != 58), (s.dropWhile (fun b => b != 58)).tail)
  else none

/-- The error cases of `middleware.validateBasicAuth`, in source order. -/
inductive AuthError where
  | missingHeader
  | invalidHeader
  | invalidBase64
  | invalidValue
  | invalidCredentials
deriving DecidableEq, Repr

/-- `middleware.validateBasicAuth`: the authorization values from the
request metadata, checked against the configured credentials.  `decode`
abstracts `base64.StdEncoding.DecodeString` (`none` = decode error). -/
def validateBasicAuth (authHeaders : List (List Nat))
    (decode : List Nat → Option (List Nat)) (cfg : BasicAuthConfig) :
    Except AuthError Unit :=
  match authHeaders with
  | [] => .error .missingHeader
  | header :: _ =>
      if basicTagBytes.isPrefixOf header then
        match decode (header.drop basicTagBytes.length) with
        | none => .error .invalidBase64
        | some decoded =>
            match splitFirstColon decoded with
            | none => .error .invalidValue
            | some (user, pass) =>
                if credentialsMatch user pass cfg then .ok ()
                else .error .invalidCredentials
      else .error .invalidHeader

/-- The acceptance condition of the specification, stated in the spec's own
words: a header value is present, it starts with `"Basic "`, the remainder
decodes, the decoded bytes contain a colon, and the split at the first
colon yields exactly the configured username and password. -/
def basicAuthSpecAccepts (authHeaders : List (List Nat))
    (decode : List Nat → Option (List Nat)) (cfg : BasicAuthConfig) : Prop :=
  ∃ header rest, authHeaders = header :: rest ∧
    basicTagBytes.isPrefixOf header = true ∧
    ∃ d, decode (header.drop 6) = some d ∧ d.contains 58 = true ∧
      d.takeWhile (fun b => b != 58) = cfg.username ∧
      (d.dropWhile (fun b => b != 58)).tail = cfg.password

/-! ## Telemetry packet data model (`internal/gen/pb`)

The protobuf message types used by the sender, with Go `float` fields
carried opaquely as `Rat`, proto integers as `Int`, byte strings as
`List Nat` and enums as their numeric value. -/

/-- `pb.DeviceHardwareInfo`. -/
structure DeviceHardwareInfo where
  physicalCores : Int
  logicalCpus : Int
  l1CacheKb : Int
  l2CacheKb : Int
  l3CacheKb : Int
  totalPhysicalMemory : Int

/-- `pb.CpuDetail`. -/
structure CpuDetail where
  totalUsagePercent : Rat
  coreUsagePercent : List Rat

/-- `pb.MemoryDetail`. -/
structure MemoryDetail where
  appResidentBytes : Int
  appVirtualBytes : Int
  systemFreeBytes : Int
  systemActiveBytes : Int
  systemInactiveBytes : Int
  systemWiredBytes : Int

/-- `pb.MetricPoint`. -/
structure MetricPoint where
  clientTimestampMs : Int
  networkType : Int
  batteryLevelPercent : Rat
  cpu : Option CpuDetail
  memory : Option MemoryDetail

/-- `pb.MetricBatch`. -/
structure MetricBatch where
  points : List MetricPoint

/-- `pb.LogEntry`; the free-form context map as a key-value list. -/
structure LogEntry where
  clientTimestampMs : Int
  networkType : Int
  level : Int
  tag : String
  message : String
  context : List (String × String)
  stackTrace : String

/-- `pb.LogBatch`. -/
structure LogBatch where
  entries : List LogEntry

/-- `pb.ClientMetadata`. -/
structure ClientMetadata where
  platform : Int
  installationId : List Nat
  journeyId : List Nat
  sdkVersionPacked : Int
  hostAppVersion : String
  hostAppName : String
  deviceHardware : Option DeviceHardwareInfo

/-- `pb.TelemetryPacket`. -/
structure TelemetryPacket where
  schemaVersion : Int
  metadata : Option ClientMetadata
  metrics : Option MetricBatch
  logs : Option LogBatch

/-- `pb.Ack`. -/
structure Ack where
  success : Bool
  message : String
deriving DecidableEq, Repr

/-! ## Sender configuration (`internal/config`), as the sender reads it -/

/-- The `Server` config fields the sender consults. -/
structure ServerConfig where
  maxPacketSizeBytes : Int
  maxContextAttrs : Int
deriving DecidableEq, Repr

/-- The `Elastic` config fields the sender consults. -/
structure ElasticConfig where
  indexMetrics : String
  indexLogs : String
deriving DecidableEq, Repr

/-- `config.Config`, restricted to the fields `ingest.Sender` reads. -/
structure Config where
  server : ServerConfig
  elastic : ElasticConfig
deriving DecidableEq, Repr

/-! ## Documents and validation (`internal/ingest/sender.go`) -/

/-- A JSON-shaped document value, as built by `metricDocument` and
`logDocument` into `map[string]any`: strings, proto integers, floats
(opaque rationals), the `String()` rendering of an enum with the given
numeric value, the string-to-string context map, float lists, and nested
objects. -/
inductive DocVal where
  | str (s : String)
  | int (n : Int)
  | num (q : Rat)
  | enumStr (n : Int)
  | strMap (m : List (String × String))
  | numList (l : List Rat)
  | obj (fields : List (String × DocVal))

/-- A document: the key-value pairs inserted into the `map[string]any`, in
source order. -/
abbrev Doc := List (String × DocVal)

/-- `hex.EncodeToString`, one byte to two lowercase hex digits. -/
def hexDigit (n : Nat) : Char :=
  if n < 10 then Char.ofNat (48 + n) else Char.ofNat (87 + n)

/-- `hex.EncodeToString` on a byte list. -/
def hexEncode (bs : List Nat) : String :=
  String.mk (bs.foldr (fun b acc => hexDigit (b >>> 4) :: hexDigit (b % 16) :: acc) [])

/-- `ingest.metricDocument`. -/
def metricDocument (md : ClientMetadata) (pt : MetricPoint) : Doc :=
  let doc : Doc :=
    [("timestamp", .int pt.clientTimestampMs),
     ("platform", .enumStr md.platform),
     ("installation_id", .str (hexEncode md.installationId)),
     ("journey_id", .str (hexEncode md.journeyId)),
     ("sdk_version", .int md.sdkVersionPacked),
     ("host_app_version", .str md.hostAppVersion),
     ("host_app_name", .str md.hostAppName),
     ("network", .enumStr pt.networkType),
     ("battery_level", .num pt.batteryLevelPercent)]
  let doc := match md.deviceHardware with
    | none => doc
    | some hw => doc ++
        [("device_hardware", .obj
          [("physical_cores", .int hw.physicalCores),
           ("logical_cpus", .int hw.logicalCpus),
           ("l1_cache_kb", .int hw.l1CacheKb),
           ("l2_cache_kb", .int hw.l2CacheKb),
           ("l3_cache_kb", .int hw.l3CacheKb),
           ("total_physical_bytes", .int hw.totalPhysicalMemory)])]
  let doc := match pt.cpu with
    | none => doc
    | some cpu => doc ++
        [("cpu", .obj
          [("total_usage_percent", .num cpu.totalUsagePercent),
           ("core_usage_percent", .numList cpu.coreUsagePercent)])]
  match pt.memory with
  | none => doc
  | some mem => doc ++
      [("memory", .obj
        [("app_resident_bytes", .int mem.appResidentBytes),
         ("app_virtual_bytes", .int mem.appVirtualBytes),
         ("system_free_bytes", .int mem.systemFreeBytes),
         ("system_active_bytes", .int mem.systemActiveBytes),
         ("system_inactive_bytes", .int mem.systemInactiveBytes),
         ("system_wired_bytes", .int mem.systemWiredBytes)])]

/-- `ingest.logDocument`. -/
def logDocument (md : ClientMetadata) (entry : LogEntry) : Doc :=
  [("timestamp", .int entry.clientTimestampMs),
   ("platform", .enumStr md.platform),
   ("installation_id", .str (hexEncode md.installationId)),
   ("journey_id", .str (hexEncode md.journeyId)),
   ("sdk_version", .int md.sdkVersionPacked),
   ("host_app_version", .str md.hostAppVersion),
   ("host_app_name", .str md.hostAppName),
   ("network", .enumStr entry.networkType),
   ("level", .enumStr entry.level),
   ("tag", .str entry.tag),
   ("message", .str entry.message),
   ("context", .strMap entry.context),
   ("stack_trace", .str entry.stackTrace)]

/-- The reasons of the UUID check's error returns, in source order.
`uuid.FromBytes` only fails on a length other than 16 and is therefore
unreachable behind the explicit length check; it contributes no case. -/
inductive UuidErrKind where
  | required
  | wrongLength (got : Nat)
  | wrongVersion (got : Nat)
  | invalidVariant
deriving DecidableEq, Repr

/-- `ingest.validateUUIDv7`: empty and length checks, then the version
nibble of byte 6 must be 7 and the top two bits of byte 8 must be `10`.
Errors carry the offending field's name. -/
def validateUUIDv7 (data : List Nat) (fieldName : String) :
    Except (String × UuidErrKind) Unit :=
  if data.length = 0 then .error (fieldName, .required)
  else if data.length ≠ 16 then .error (fieldName, .wrongLength data.length)
  else
    let version := (data.getD 6 0 &&& 0xf0) >>> 4
    if version ≠ 7 then .error (fieldName, .wrongVersion version)
    else
      let variant := (data.getD 8 0 &&& 0xc0) >>> 6
      if variant ≠ 2 then .error (fieldName, .invalidVariant)
      else .ok ()

/-- `ingest.validatePacketSize` with `proto.Size` abstracted into the
already-computed `size`: the error carries the actual and maximum sizes. -/
def validatePacketSize (size maxSize : Int) : Except (Int × Int) Unit :=
  if size > maxSize then .error (size, maxSize) else .ok ()

/-- The structured reasons behind the sender's invalid-argument returns. -/
inductive ErrReason where
  | missingMetadata
  | packetTooLarge (size maxSize : Int)
  | uuidInvalid (field : String) (kind : UuidErrKind)
  | contextTooLarge (count maxCount : Int)
deriving DecidableEq, Repr

/-- A gRPC status error as the sender produces it: always
`codes.InvalidArgument`, with a structured reason in place of the message
string. -/
inductive SendErr where
  | invalidArgument (reason : ErrReason)
deriving DecidableEq, Repr

/-- The sender's logger calls, reified. -/
inductive LogEvent where
  | warnPacketSize
  | warnInvalidInstallationId
  | warnInvalidJourneyId
  | warnContextTooLarge
  | errMarshalFailed
  | errAddToIndexerFailed (index : String)
deriving Repr

/-- `(*Sender).indexAsync`: marshal the document (`marshalOk` abstracts
`json.Marshal` success — on failure the document is dropped with an error
log), then hand it to `bulkIndexer.Add`, whose error return (`addErr`
oracle) is only logged.  Returns the `Add` calls made and the log events
emitted. -/
def indexAsync (marshalOk : Doc → Bool) (addErr : String → Doc → Bool)
    (index : String) (doc : Doc) : List (String × Doc) × List LogEvent :=
  if marshalOk doc then
    ([(index, doc)], if addErr index doc then [.errAddToIndexerFailed index] else [])
  else
    ([], [.errMarshalFailed])

/-- The metric fan-out loop of `SendTelemetry`: one document per point. -/
def processPoints (marshalOk : Doc → Bool) (addErr : String → Doc → Bool)
    (cfg : Config) (md : ClientMetadata) :
    List MetricPoint → List (String × Doc) × List LogEvent
  | [] => ([], [])
  | pt :: rest =>
      let (items, evs) := indexAsync marshalOk addErr cfg.elastic.indexMetrics (metricDocument md pt)
      let (items2, evs2) := processPoints marshalOk addErr cfg md rest
      (items ++ items2, evs ++ evs2)

/-- The `packet.Metrics != nil` guard around the metric fan-out loop of
`SendTelemetry`. -/
def metricFanOut (marshalOk : Doc → Bool) (addErr : String → Doc → Bool)
    (cfg : Config) (md : ClientMetadata) :
    Option MetricBatch → List (String × Doc) × List LogEvent
  | none => ([], [])
  | some batch => processPoints marshalOk addErr cfg md batch.points

/-- The log fan-out loop of `SendTelemetry`: each entry's context map is
checked against `maxCtx` right before that entry is emitted; the first
violation aborts the loop with the invalid-argument error, keeping the
documents already handed to the indexer. -/
def processLogEntries (marshalOk : Doc → Bool) (addErr : String → Doc → Bool)
    (cfg : Config) (md : ClientMetadata) (maxCtx : Int) :
    List LogEntry → Except SendErr Unit × List (String × Doc) × List LogEvent
  | [] => (.ok (), [], [])
  | entry :: rest =>
      if (entry.context.length : Int) > maxCtx then
        (.error (.invalidArgument (.contextTooLarge entry.context.length maxCtx)),
         [], [.warnContextTooLarge])
      else
        let (items, evs) := indexAsync marshalOk addErr cfg.elastic.indexLogs (logDocument md entry)
        let (res, items2, evs2) := processLogEntries marshalOk addErr cfg md maxCtx rest
        (res, items ++ items2, evs ++ evs2)

/-- The effective packet-size ceiling: the configured value, or 1500 (one
MTU) when the configured value is 0. -/
def effectiveMaxPacketSize (cfg : Config) : Int :=
  if cfg.server.maxPacketSizeBytes = 0 then 1500 else cfg.server.maxPacketSizeBytes

/-- The effective context-attribute ceiling: the configured value, or 6
when the configured value is 0. -/
def effectiveMaxContextAttrs (cfg : Config) : Int :=
  if cfg.server.maxContextAttrs = 0 then 6 else cfg.server.maxContextAttrs

/-- `(*Sender).SendTelemetry`: nil/metadata guard, packet-size check
(against `protoSize`, abstracting `proto.Size`), both identifier checks,
then the metric fan-out followed by the log fan-out with its per-entry
context check.  Returns the wire result next to the `Add`-call trace and
the log-event trace. -/
def SendTelemetry (protoSize : TelemetryPacket → Int) (cfg : Config)
    (marshalOk : Doc → Bool) (addErr : String → Doc → Bool)
    (packet : Option TelemetryPacket) :
    Except SendErr Ack × List (String × Doc) × List LogEvent :=
  match packet with
  | none => (.error (.invalidArgument .missingMetadata), [], [])
  | some p =>
    match p.metadata with
    | none => (.error (.invalidArgument .missingMetadata), [], [])
    | some md =>
      let maxPacketSize := if cfg.server.maxPacketSizeBytes = 0 then 1500
                           else cfg.server.maxPacketSizeBytes
      match validatePacketSize (protoSize p) maxPacketSize with
      | .error e => (.error (.invalidArgument (.packetTooLarge e.1 e.2)), [], [.warnPacketSize])
      | .ok _ =>
      match validateUUIDv7 md.installationId "installation_id" with
      | .error e => (.error (.invalidArgument (.uuidInvalid e.1 e.2)), [],
                     [.warnInvalidInstallationId])
      | .ok _ =>
      match validateUUIDv7 md.journeyId "journey_id" with
      | .error e => (.error (.invalidArgument (.uuidInvalid e.1 e.2)), [],
                     [.warnInvalidJourneyId])
      | .ok _ =>
        let (metricItems, metricEvs) := metricFanOut marshalOk addErr cfg md p.metrics
        match p.logs with
        | none => (.ok ⟨true, "Accepted"⟩, metricItems, metricEvs)
        | some batch =>
            let maxCtx := if cfg.server.maxContextAttrs = 0 then 6
                          else cfg.server.maxContextAttrs
            let (res, logItems, logEvs) :=
              processLogEntries marshalOk addErr cfg md maxCtx batch.entries
            match res with
            | .error e => (.error e, metricItems ++ logItems, metricEvs ++ logEvs)
            | .ok _ => (.ok ⟨true, "Accepted"⟩, metricItems ++ logItems, metricEvs ++ logEvs)

/-- Boolean rendering of "the packet passes every validation check of
`SendTelemetry`": metadata present, wire size within the effective
ceiling, both identifiers valid UUIDv7, and every log entry's context map
within the effective attribute ceiling. -/
def packetValidB (protoSize : TelemetryPacket → Int) (cfg : Config)
    (p : TelemetryPacket) : Bool :=
  match p.metadata with
  | none => false
  | some md =>
      decide (protoSize p ≤ effectiveMaxPacketSize cfg) &&
      (validateUUIDv7 md.installationId "installation_id").isOk &&
      (validateUUIDv7 md.journeyId "journey_id").isOk &&
      (match p.logs with
       | none => true
       | some batch =>
           batch.entries.all fun e =>
             decide ((e.context.length : Int) ≤ effectiveMaxContextAttrs cfg))

/-! ## Concrete sample inputs (used by witnesses and counterexamples) -/

/-- The 16-byte all-zero identifier. -/
def zeros16 : List Nat := List.replicate 16 0

/-- The all-zero identifier with byte 6 set to `0x70` (version 7) and byte
8 set to `0x80` (top two bits `10`). -/
def goodUuidBytes : List Nat := [0, 0, 0, 0, 0, 0, 0x70, 0, 0x80, 0, 0, 0, 0, 0, 0, 0]

/-- Sample metadata carrying valid version-7 identifiers. -/
def mdGood : ClientMetadata :=
  { platform := 1, installationId := goodUuidBytes, journeyId := goodUuidBytes,
    sdkVersionPacked := 3, hostAppVersion := "1.0.0", hostAppName := "app",
    deviceHardware := none }

/-- A sample metric point. -/
def ptSample : MetricPoint :=
  { clientTimestampMs := 10, networkType := 2, batteryLevelPercent := 1/2,
    cpu := none, memory := none }

/-- A sample log entry with `n` context attributes. -/
def entryCtx (n : Nat) : LogEntry :=
  { clientTimestampMs := 20, networkType := 2, level := 1, tag := "t", message := "m",
    context := (List.range n).map (fun i => (toString i, "v")), stackTrace := "" }

/-- A sender configuration with both limits left at 0, so both defaults
(1500 bytes, 6 attributes) apply. -/
def cfgDefaults : Config :=
  { server := { maxPacketSizeBytes := 0, maxContextAttrs := 0 },
    elastic := { indexMetrics := "metrics", indexLogs := "logs" } }

/-- A packet with one valid metric point and one log entry whose context
has 7 attributes — one more than the default ceiling of 6. -/
def pktOverCtx : TelemetryPacket :=
  { schemaVersion := 0, metadata := some mdGood,
    metrics := some { points := [ptSample] },
    logs := some { entries := [entryCtx 7] } }

/-- The same packet with 3 context attributes, within every limit. -/
def pktGood : TelemetryPacket :=
  { schemaVersion := 0, metadata := some mdGood,
    metrics := some { points := [ptSample] },
    logs := some { entries := [entryCtx 3] } }

/-! ## Rate limiter lemmas -/

/-- The bucket `Allow` consults for a key: the stored one, or a fresh one. -/
def bucketOf (r : RateLimiter) (key : String) : TokenLimiter :=
  match r.limiters (normalizeKey key) with
  | some lim => lim
  | none => newTokenLimiter r.limit r.burst

theorem allow_some_char (r : RateLimiter) (k : String) (t : Rat)
    (hl : ¬ r.limit ≤ 0) :
    ∃ r2, RateLimiter.Allow (some r) k t = (((bucketOf r k).allowAt t).1, some r2) ∧
      r2.limit = r.limit ∧ r2.burst = r.burst ∧
      r2.limiters (normalizeKey k) = some ((bucketOf r k).allowAt t).2 ∧
      ∀ kk, kk ≠ normalizeKey k → r2.limiters kk = r.limiters kk := by
  cases h : r.limiters (normalizeKey k) with
  | some lim =>
      refine ⟨{ r with limiters := fun kk =>
          if kk = normalizeKey k then some ((bucketOf r k).allowAt t).2
          else r.limiters kk }, ?_, rfl, rfl, ?_, ?_⟩
      · simp only [RateLimiter.Allow, RateLimiter.limiterForKey, h, if_neg hl, bucketOf]
      · exact if_pos rfl
      · intro kk hkk
        exact if_neg hkk
  | none =>
      refine ⟨{ r with limiters := fun kk =>
          if kk = normalizeKey k then some ((bucketOf r k).allowAt t).2
          else if kk = normalizeKey k then some (newTokenLimiter r.limit r.burst)
          else r.limiters kk }, ?_, rfl, rfl, ?_, ?_⟩
      · simp only [RateLimiter.Allow, RateLimiter.limiterForKey, h, if_neg hl, bucketOf]
      · exact if_pos rfl
      · intro kk hkk
        simp only [if_neg hkk]

theorem tokenLimiter_deny_of_burst_nonpos (lim : TokenLimiter) (t : Rat)
    (h : lim.burst ≤ 0) : lim.allowAt t = (false, lim) := by
  unfold TokenLimiter.allowAt
  split
  · rw [if_neg]
    omega
  · rw [if_neg]
    rintro ⟨h1, -⟩
    omega

theorem tokenLimiter_allowAt_instant (R : Rat) (B : Int) (c : Nat) (t : Rat)
    (hR : 0 < R) (hcB : (c : Int) ≤ B) :
    TokenLimiter.allowAt ⟨R, B, (c : Rat), t⟩ t =
      if 1 ≤ c then (true, ⟨R, B, ((c - 1 : Nat) : Rat), t⟩)
      else (false, ⟨R, B, (c : Rat), t⟩) := by
  have hcB' : (c : Rat) ≤ (B : Rat) := by exact_mod_cast hcB
  simp only [TokenLimiter.allowAt, TokenLimiter.advanceTokens, if_neg hR.ne',
    lt_irrefl t, if_false]
  have h1 : (c : Rat) + (t - t) * R = (c : Rat) := by ring
  rw [h1, if_neg (not_lt.mpr hcB')]
  by_cases hc : 1 ≤ c
  · have hB1 : (1 : Int) ≤ B := le_trans (by exact_mod_cast hc) hcB
    have hc1 : (0 : Rat) ≤ (c : Rat) - 1 := by
      have : (1 : Rat) ≤ (c : Rat) := by exact_mod_cast hc
      linarith
    rw [if_pos ⟨hB1, hc1⟩, if_pos hc]
    have : (c : Rat) - 1 = ((c - 1 : Nat) : Rat) := by
      have : (1 : Nat) ≤ c := hc
      push_cast [Nat.cast_sub this]
      ring
    rw [this]
  · have hc0 : c = 0 := by omega
    subst hc0
    rw [if_neg, if_neg hc]
    rintro ⟨-, h2⟩
    norm_num at h2

theorem tokenLimiter_fresh_fill (R : Rat) (B : Nat) (t : Rat) (hR : 0 < R)
    (ht : 0 ≤ t) (hfill : (B : Rat) ≤ t * R) :
    (newTokenLimiter R (B : Int)).allowAt t =
      if 1 ≤ B then (true, ⟨R, (B : Int), ((B - 1 : Nat) : Rat), t⟩)
      else (false, newTokenLimiter R (B : Int)) := by
  simp only [newTokenLimiter, TokenLimiter.allowAt, TokenLimiter.advanceTokens,
    if_neg hR.ne', if_neg (not_lt.mpr ht)]
  have h1 : (0 : Rat) + (t - 0) * R = t * R := by ring
  rw [h1]
  have h2 : (if ((B : Int) : Rat) < t * R then ((B : Int) : Rat) else t * R) = (B : Rat) := by
    split
    · push_cast
      ring
    · push_cast at *
      linarith
  rw [h2]
  by_cases hc : 1 ≤ B
  · have hB1 : (1 : Int) ≤ (B : Int) := by exact_mod_cast hc
    have hc1 : (0 : Rat) ≤ (B : Rat) - 1 := by
      have : (1 : Rat) ≤ (B : Rat) := by exact_mod_cast hc
      linarith
    rw [if_pos ⟨hB1, hc1⟩, if_pos hc]
    have heq : (B : Rat) - 1 = ((B - 1 : Nat) : Rat) := by
      push_cast [Nat.cast_sub hc]
      ring
    rw [heq]
  · have hc0 : B = 0 := by omega
    subst hc0
    rw [if_neg, if_neg hc]
    rintro ⟨-, h3⟩
    norm_num at h3

theorem allowRepeat_bucket (n : Nat) :
    ∀ (c : Nat) (r : RateLimiter) (k : String) (t : Rat),
    0 < r.limit → (c : Int) ≤ r.burst →
    r.limiters (normalizeKey k) = some ⟨r.limit, r.burst, (c : Rat), t⟩ →
    allowRepeat (some r) k t n =
      List.replicate (min c n) true ++ List.replicate (n - c) false := by
  induction n with
  | zero =>
      intros
      simp [allowRepeat]
  | succ n ih =>
      intro c r k t hl hcb hmap
      have hl' : ¬ r.limit ≤ 0 := not_le.mpr hl
      obtain ⟨r2, heq, hlim2, hburst2, hself, -⟩ := allow_some_char r k t hl'
      have hbucket : bucketOf r k = ⟨r.limit, r.burst, (c : Rat), t⟩ := by
        simp [bucketOf, hmap]
      rw [hbucket, tokenLimiter_allowAt_instant r.limit r.burst c t hl hcb] at heq hself
      have hstep : allowRepeat (some r) k t (n + 1) =
          (RateLimiter.Allow (some r) k t).1 ::
            allowRepeat (RateLimiter.Allow (some r) k t).2 k t n := rfl
      by_cases hc : 1 ≤ c
      · rw [if_pos hc] at heq hself
        have heq2 : RateLimiter.Allow (some r) k t = (true, some r2) := heq
        have hself2 : r2.limiters (normalizeKey k) =
            some ⟨r2.limit, r2.burst, ((c - 1 : Nat) : Rat), t⟩ := by
          rw [hlim2, hburst2]
          exact hself
        have hcb2 : ((c - 1 : Nat) : Int) ≤ r2.burst := by
          rw [hburst2]
          omega
        have hl2 : 0 < r2.limit := by rw [hlim2]; exact hl
        rw [hstep, heq2]
        simp only [Prod.fst, Prod.snd]
        rw [ih (c - 1) r2 k t hl2 hcb2 hself2]
        have hmin : min c (n + 1) = min (c - 1) n + 1 := by omega
        have hsub : (n + 1) - c = n - (c - 1) := by omega
        rw [hmin, hsub, List.replicate_succ, List.cons_append]
      · have hc0 : c = 0 := by omega
        subst hc0
        rw [if_neg hc] at heq hself
        have heq2 : RateLimiter.Allow (some r) k t = (false, some r2) := heq
        have hself2 : r2.limiters (normalizeKey k) =
            some ⟨r2.limit, r2.burst, ((0 : Nat) : Rat), t⟩ := by
          rw [hlim2, hburst2]
          exact hself
        have hcb2 : ((0 : Nat) : Int) ≤ r2.burst := by
          rw [hburst2]
          omega
        have hl2 : 0 < r2.limit := by rw [hlim2]; exact hl
        rw [hstep, heq2]
        simp only [Prod.fst, Prod.snd]
        rw [ih 0 r2 k t hl2 hcb2 hself2]
        simp [List.replicate_succ]

theorem allowRepeat_fresh (r : RateLimiter) (B : Nat) (k : String) (t : Rat)
    (hl : 0 < r.limit) (hb : r.burst = (B : Int))
    (hmap : r.limiters (normalizeKey k) = none)
    (ht : 0 ≤ t) (hfill : (B : Rat) ≤ t * r.limit) :
    allowRepeat (some r) k t (B + 1) = List.replicate B true ++ [false] := by
  have hl' : ¬ r.limit ≤ 0 := not_le.mpr hl
  obtain ⟨r2, heq, hlim2, hburst2, hself, -⟩ := allow_some_char r k t hl'
  have hbucket : bucketOf r k = newTokenLimiter r.limit r.burst := by
    simp [bucketOf, hmap]
  rw [hbucket, hb, tokenLimiter_fresh_fill r.limit B t hl ht hfill] at heq hself
  have hstep : allowRepeat (some r) k t (B + 1) =
      (RateLimiter.Allow (some r) k t).1 ::
        allowRepeat (RateLimiter.Allow (some r) k t).2 k t B := rfl
  by_cases hcB : 1 ≤ B
  · rw [if_pos hcB] at heq hself
    have heq2 : RateLimiter.Allow (some r) k t = (true, some r2) := heq
    have hself2 : r2.limiters (normalizeKey k) =
        some ⟨r2.limit, r2.burst, ((B - 1 : Nat) : Rat), t⟩ := by
      rw [hlim2, hburst2, hb]
      exact hself
    have hcb2 : ((B - 1 : Nat) : Int) ≤ r2.burst := by
      rw [hburst2, hb]
      omega
    have hl2 : 0 < r2.limit := by rw [hlim2]; exact hl
    rw [hstep, heq2]
    simp only [Prod.fst, Prod.snd]
    rw [allowRepeat_bucket B (B - 1) r2 k t hl2 hcb2 hself2]
    rw [min_eq_left (by omega : B - 1 ≤ B), show B - (B - 1) = 1 by omega,
      List.replicate_one, ← List.cons_append, ← List.replicate_succ,
      show B - 1 + 1 = B by omega]
  · have hB0 : B = 0 := by omega
    subst hB0
    rw [if_neg hcB] at heq
    have heq2 : RateLimiter.Allow (some r) k t = (false, some r2) := heq
    rw [hstep, heq2]
    simp [allowRepeat]

/-- C2: for an enabled limiter with finite rate `R > 0` and burst `B`, a
fresh key issuing `B + 1` `Allow` calls at one (non-negative) instant `t`
with `B ≤ t * R` (so the fresh bucket is fully charged, as any wall-clock
instant gives against the Go zero time) is admitted on exactly the first
`B` calls and denied on the `(B+1)`-th. -/
theorem rateLimiter_burst_exhaustion (cfg : RateLimitConfig) (B : Nat)
    (k : String) (t : Rat)
    (hen : cfg.enabled = true) (hR : 0 < cfg.requestsPerSecond)
    (hB : cfg.burst = (B : Int)) (ht : 0 ≤ t)
    (hfill : (B : Rat) ≤ t * cfg.requestsPerSecond) :
    allowRepeat (NewRateLimiter cfg) k t (B + 1) =
      List.replicate B true ++ [false] := by
  have hR' : ¬ cfg.requestsPerSecond ≤ 0 := not_le.mpr hR
  have hnew : NewRateLimiter cfg = some
      { limit := cfg.requestsPerSecond, burst := cfg.burst, limiters := fun _ => none } := by
    unfold NewRateLimiter
    rw [if_neg]
    rintro (h1 | h2)
    · rw [hen] at h1
      exact h1 rfl
    · exact hR' h2
  rw [hnew]
  exact allowRepeat_fresh _ B k t hR hB rfl ht hfill

/-- Witness for C2 at rate 1, burst 2, key `"a"`, instant 5: the three
outcomes are admit, admit, deny. -/
theorem rateLimiter_burst_exhaustion_witness :
    allowRepeat (NewRateLimiter ⟨true, 1, 2⟩) "a" 5 3 =
      List.replicate 2 true ++ [false] :=
  rateLimiter_burst_exhaustion ⟨true, 1, 2⟩ 2 "a" 5 rfl (by norm_num) rfl
    (by norm_num) (by norm_num)

/-- C3: `NewRateLimiter` yields an absent (`none`) limiter exactly when the
configuration is disabled or its rate is ≤ 0, and `Allow` on the absent
limiter returns `true` for every key — including the empty string — at
every instant, leaving the absent state unchanged.  Both the HTTP and the
gRPC adapters consult exactly this `Allow` (the HTTP wrapper additionally
short-circuits a nil limiter to pass-through, which agrees with it). -/
theorem newRateLimiter_absent_always_allows :
    (∀ cfg : RateLimitConfig,
        NewRateLimiter cfg = none ↔
          (cfg.enabled = false ∨ cfg.requestsPerSecond ≤ 0)) ∧
    (∀ (key : String) (t : Rat), RateLimiter.Allow none key t = (true, none)) := by
  constructor
  · intro cfg
    by_cases h1 : cfg.enabled <;> by_cases h2 : cfg.requestsPerSecond ≤ 0 <;>
      simp_all [NewRateLimiter]
  · intro key t
    rfl

theorem allow_denies_of_zero_burst (r : RateLimiter) (k : String) (t : Rat)
    (hb : r.burst = 0) (hl : 0 < r.limit)
    (hmap : ∀ key lim, r.limiters key = some lim → lim.burst ≤ 0) :
    ∃ r2, RateLimiter.Allow (some r) k t = (false, some r2) ∧
      r2.burst = 0 ∧ 0 < r2.limit ∧
      ∀ key lim, r2.limiters key = some lim → lim.burst ≤ 0 := by
  have hl' : ¬ r.limit ≤ 0 := not_le.mpr hl
  obtain ⟨r2, heq, hlim2, hburst2, hself, hframe⟩ := allow_some_char r k t hl'
  have hbden : (bucketOf r k).burst ≤ 0 := by
    cases h : r.limiters (normalizeKey k) with
    | some lim =>
        rw [show bucketOf r k = lim from by simp [bucketOf, h]]
        exact hmap _ _ h
    | none =>
        rw [show bucketOf r k = newTokenLimiter r.limit r.burst from by simp [bucketOf, h]]
        simp [newTokenLimiter, hb]
  rw [tokenLimiter_deny_of_burst_nonpos _ t hbden] at heq hself
  refine ⟨r2, heq, by rw [hburst2]; exact hb, by rw [hlim2]; exact hl, ?_⟩
  intro key lim hkey
  by_cases hk : key = normalizeKey k
  · subst hk
    rw [hself] at hkey
    injection hkey with h2
    rw [← h2]
    exact hbden
  · rw [hframe key hk] at hkey
    exact hmap _ _ hkey

theorem allowSeq_zero_burst (calls : List (String × Rat)) :
    ∀ r : RateLimiter, r.burst = 0 → 0 < r.limit →
      (∀ key lim, r.limiters key = some lim → lim.burst ≤ 0) →
      allowSeqResults (some r) calls = List.replicate calls.length false := by
  induction calls with
  | nil =>
      intros
      rfl
  | cons c rest ih =>
      intro r hb hl hmap
      obtain ⟨k, t⟩ := c
      obtain ⟨r2, heq, hb2, hl2, hmap2⟩ := allow_denies_of_zero_burst r k t hb hl hmap
      have hstep : allowSeqResults (some r) ((k, t) :: rest) =
          (RateLimiter.Allow (some r) k t).1 ::
            allowSeqResults (RateLimiter.Allow (some r) k t).2 rest := rfl
      rw [hstep, heq]
      simp only [Prod.fst, Prod.snd]
      rw [ih r2 hb2 hl2 hmap2]
      simp [List.replicate_succ]

/-- C10: an enabled configuration with finite positive rate and burst 0
yields a present (non-nil) limiter on which every `Allow` call — any key,
any instant, any call history — is denied: the zero-capacity bucket admits
nothing.  The guard against this state lives only in `config.Load`, whose
pure normalization tail replaces a zero burst by `int(math.Ceil(rate))`;
`NewRateLimiter` itself applies no such defaulting. -/
theorem newRateLimiter_zero_burst_denies_all (cfg : RateLimitConfig)
    (hen : cfg.enabled = true) (hR : 0 < cfg.requestsPerSecond)
    (hb : cfg.burst = 0) :
    (NewRateLimiter cfg).isSome = true ∧
    (∀ calls : List (String × Rat),
        allowSeqResults (NewRateLimiter cfg) calls =
          List.replicate calls.length false) ∧
    loadRateLimitDefaults cfg =
      .ok { cfg with burst := ⌈cfg.requestsPerSecond⌉ } := by
  have hR' : ¬ cfg.requestsPerSecond ≤ 0 := not_le.mpr hR
  have hnew : NewRateLimiter cfg = some
      { limit := cfg.requestsPerSecond, burst := cfg.burst, limiters := fun _ => none } := by
    unfold NewRateLimiter
    rw [if_neg]
    rintro (h1 | h2)
    · rw [hen] at h1
      exact h1 rfl
    · exact hR' h2
  refine ⟨by rw [hnew]; rfl, ?_, ?_⟩
  · intro calls
    rw [hnew]
    refine allowSeq_zero_burst calls _ hb hR ?_
    intro key lim h
    exact Option.noConfusion h
  · simp [loadRateLimitDefaults, hen, hR', hb]

/-- Witness for C10 at rate 5/2, burst 0: the limiter is present, a
two-call sequence (one named key, one empty key) is denied twice, and the
load-time normalization would instead have produced burst ⌈5/2⌉. -/
theorem newRateLimiter_zero_burst_denies_all_witness :
    (NewRateLimiter ⟨true, 5/2, 0⟩).isSome = true ∧
    allowSeqResults (NewRateLimiter ⟨true, 5/2, 0⟩) [("k", 3), ("", 0)] =
      List.replicate 2 false ∧
    loadRateLimitDefaults ⟨true, 5/2, 0⟩ =
      .ok ⟨true, 5/2, ⌈(5/2 : Rat)⌉⟩ := by
  obtain ⟨h1, h2, h3⟩ :=
    newRateLimiter_zero_burst_denies_all ⟨true, 5/2, 0⟩ rfl (by norm_num) rfl
  exact ⟨h1, h2 [("k", 3), ("", 0)], h3⟩

theorem allow_fst_eq (r : RateLimiter) (k : String) (t : Rat) :
    (RateLimiter.Allow (some r) k t).1 =
      if r.limit ≤ 0 then true else ((bucketOf r k).allowAt t).1 := by
  by_cases hl : r.limit ≤ 0
  · simp [RateLimiter.Allow, hl]
  · obtain ⟨r2, heq, -, -, -, -⟩ := allow_some_char r k t hl
    rw [heq, if_neg hl]

theorem allow_fst_congr (r s : RateLimiter) (k : String) (t : Rat)
    (hl : r.limit = s.limit) (hb : r.burst = s.burst)
    (hm : r.limiters (normalizeKey k) = s.limiters (normalizeKey k)) :
    (RateLimiter.Allow (some r) k t).1 = (RateLimiter.Allow (some s) k t).1 := by
  have hbk : bucketOf r k = bucketOf s k := by
    unfold bucketOf
    rw [hm, hl, hb]
  rw [allow_fst_eq, allow_fst_eq, hl, hbk]

theorem applyCalls_char (ts : List Rat) :
    ∀ (r : RateLimiter) (a : String),
      ∃ r2, applyCalls (some r) a ts = some r2 ∧
        r2.limit = r.limit ∧ r2.burst = r.burst ∧
        ∀ kk, kk ≠ normalizeKey a → r2.limiters kk = r.limiters kk := by
  induction ts with
  | nil =>
      intro r a
      exact ⟨r, rfl, rfl, rfl, fun _ _ => rfl⟩
  | cons t ts ih =>
      intro r a
      have hstep : applyCalls (some r) a (t :: ts) =
          applyCalls (RateLimiter.Allow (some r) a t).2 a ts := rfl
      by_cases hl : r.limit ≤ 0
      · have hsnd : (RateLimiter.Allow (some r) a t).2 = some r := by
          simp [RateLimiter.Allow, hl]
        rw [hstep, hsnd]
        exact ih r a
      · obtain ⟨r1, heq, hl1, hb1, -, hframe1⟩ := allow_some_char r a t hl
        rw [hstep, heq]
        simp only [Prod.snd]
        obtain ⟨r2, happ, hl2, hb2, hframe2⟩ := ih r1 a
        exact ⟨r2, happ, hl2.trans hl1, hb2.trans hb1,
          fun kk hkk => (hframe2 kk hkk).trans (hframe1 kk hkk)⟩

/-- C8, amended: an `Allow(k)` call reads and mutates only the bucket of
the *normalized* key: every other map entry is left untouched, and for two
keys whose normalized forms differ, no sequence of admissions under the
first ever changes an admission outcome for the second.  (The original
claim's "any two distinct keys" fails for the raw keys `""` and
`"missing-installation-id"`, which share one bucket after normalization —
see the counterexample.) -/
theorem rateLimiter_key_isolation_amended :
    (∀ (r : RateLimiter) (k : String) (t : Rat) (kk : String) (r2 : RateLimiter),
        kk ≠ normalizeKey k →
        (RateLimiter.Allow (some r) k t).2 = some r2 →
        r2.limiters kk = r.limiters kk) ∧
    (∀ (r : RateLimiter) (a b : String) (ts : List Rat) (t : Rat),
        normalizeKey a ≠ normalizeKey b →
        (RateLimiter.Allow (applyCalls (some r) a ts) b t).1 =
          (RateLimiter.Allow (some r) b t).1) := by
  constructor
  · intro r k t kk r2 hkk h2
    by_cases hl : r.limit ≤ 0
    · have hsnd : (RateLimiter.Allow (some r) k t).2 = some r := by
        simp [RateLimiter.Allow, hl]
      rw [hsnd] at h2
      injection h2 with h
      rw [← h]
    · obtain ⟨r3, heq, -, -, -, hframe⟩ := allow_some_char r k t hl
      rw [heq] at h2
      simp only [Prod.snd] at h2
      injection h2 with h
      rw [← h]
      exact hframe kk hkk
  · intro r a b ts t hab
    obtain ⟨r2, happ, hl2, hb2, hframe2⟩ := applyCalls_char ts r a
    rw [happ]
    exact allow_fst_congr r2 r b t hl2 hb2 (hframe2 _ (Ne.symm hab))

/-- A concrete limiter with rate 1, burst 1 and an empty bucket map. -/
def rlSample : RateLimiter :=
  { limit := 1, burst := 1, limiters := fun _ => none }

/-- Witness for the amended C8: one `Allow("a")` call on the sample
limiter leaves key `"b"`'s map entry unchanged, and a prior call sequence
under `"a"` does not change `"b"`'s admission outcome. -/
theorem rateLimiter_key_isolation_amended_witness :
    ((RateLimiter.Allow (some rlSample) "a" 1).2.elim False
      (fun r2 => r2.limiters "b" = rlSample.limiters "b")) ∧
    (RateLimiter.Allow (applyCalls (some rlSample) "a" [1]) "b" 1).1 =
      (RateLimiter.Allow (some rlSample) "b" 1).1 := by
  constructor
  · have hl : ¬ rlSample.limit ≤ 0 := by norm_num [rlSample]
    obtain ⟨r2, heq, -, -, -, -⟩ := allow_some_char rlSample "a" 1 hl
    have h2 : (RateLimiter.Allow (some rlSample) "a" 1).2 = some r2 := by rw [heq]
    rw [h2]
    exact rateLimiter_key_isolation_amended.1 rlSample "a" 1 "b" r2 (by decide) h2
  · exact rateLimiter_key_isolation_amended.2 rlSample "a" "b" [1] 1 (by decide)

/-- C8 counterexample: the raw keys `""` and `"missing-installation-id"`
are distinct, yet exhausting the budget of `""` (burst 1, one call at
instant 1) flips the outcome for `"missing-installation-id"` from admit to
deny, because normalization maps both to one bucket.  So "any sequence of
admissions that exhausts key A's budget never changes the admission
outcomes for key B" is false for arbitrary distinct raw keys. -/
theorem rateLimiter_distinct_keys_cex :
    ("" : String) ≠ "missing-installation-id" ∧
    (RateLimiter.Allow (some rlSample) "missing-installation-id" 1).1 = true ∧
    (RateLimiter.Allow (applyCalls (some rlSample) "" [1])
        "missing-installation-id" 1).1 = false := by
  have hl : ¬ rlSample.limit ≤ 0 := by norm_num [rlSample]
  have hfillRaw := tokenLimiter_fresh_fill 1 1 1 (by norm_num) (by norm_num) (by norm_num)
  rw [if_pos (by norm_num : (1 : Nat) ≤ 1)] at hfillRaw
  have hfill : (newTokenLimiter rlSample.limit rlSample.burst).allowAt 1 =
      (true, ⟨1, ((1 : Nat) : Int), ((1 - 1 : Nat) : Rat), 1⟩) := hfillRaw
  refine ⟨by decide, ?_, ?_⟩
  · obtain ⟨r2, heq, -, -, -, -⟩ := allow_some_char rlSample "missing-installation-id" 1 hl
    have hbucket : bucketOf rlSample "missing-installation-id" =
        newTokenLimiter rlSample.limit rlSample.burst := rfl
    rw [hbucket, hfill] at heq
    rw [heq]
  · obtain ⟨r2, heq, hlim2, hburst2, hself, -⟩ := allow_some_char rlSample "" 1 hl
    have hbucket : bucketOf rlSample "" =
        newTokenLimiter rlSample.limit rlSample.burst := rfl
    rw [hbucket, hfill] at heq hself
    have happ : applyCalls (some rlSample) "" [1] = (RateLimiter.Allow (some rlSample) "" 1).2 := rfl
    rw [happ, heq]
    simp only [Prod.snd]
    rw [allow_fst_eq, if_neg (by rw [hlim2]; exact hl)]
    have hbucket2 : bucketOf r2 "missing-installation-id" =
        ⟨1, ((1 : Nat) : Int), ((1 - 1 : Nat) : Rat), 1⟩ := by
      unfold bucketOf
      rw [show normalizeKey "missing-installation-id" = normalizeKey "" from rfl, hself]
    rw [hbucket2]
    have hinst := tokenLimiter_allowAt_instant 1 ((1 : Nat) : Int) 0 1
      (by norm_num) (by norm_num)
    rw [if_neg (by norm_num : ¬ (1 : Nat) ≤ 0)] at hinst
    rw [show (⟨1, ((1 : Nat) : Int), ((1 - 1 : Nat) : Rat), 1⟩ : TokenLimiter) =
        ⟨1, ((1 : Nat) : Int), ((0 : Nat) : Rat), 1⟩ from rfl, hinst]

/-! ## Constant-time comparison lemmas -/

theorem natLorEqZero (a b : Nat) : a ||| b = 0 ↔ a = 0 ∧ b = 0 := by
  constructor
  · intro h
    constructor
    · apply Nat.eq_of_testBit_eq
      intro i
      have hc := congrArg (fun n => n.testBit i) h
      simp only [Nat.testBit_lor, Nat.zero_testBit] at hc
      rw [Nat.zero_testBit]
      exact (Bool.or_eq_false_iff.mp hc).1
    · apply Nat.eq_of_testBit_eq
      intro i
      have hc := congrArg (fun n => n.testBit i) h
      simp only [Nat.testBit_lor, Nat.zero_testBit] at hc
      rw [Nat.zero_testBit]
      exact (Bool.or_eq_false_iff.mp hc).2
  · rintro ⟨rfl, rfl⟩
    rfl

theorem constantTimeLoop_cons (a b v : Nat) (xs ys : List Nat) :
    constantTimeLoop (a :: xs) (b :: ys) v =
      ((constantTimeLoop xs ys (v ||| (a ^^^ b))).1,
       (constantTimeLoop xs ys (v ||| (a ^^^ b))).2 + 1) := rfl

theorem constantTimeLoop_fst (x : List Nat) : ∀ (y : List Nat) (v : Nat),
    (constantTimeLoop x y v).1 = v ||| (constantTimeLoop x y 0).1 := by
  induction x with
  | nil =>
      intro y v
      simp [constantTimeLoop]
  | cons a xs ih =>
      intro y v
      cases y with
      | nil => simp [constantTimeLoop]
      | cons b ys =>
          rw [constantTimeLoop_cons, constantTimeLoop_cons]
          simp only []
          rw [ih ys (v ||| (a ^^^ b)), ih ys (0 ||| (a ^^^ b)), Nat.zero_or,
            Nat.lor_assoc]

theorem constantTimeLoop_snd (x : List Nat) : ∀ (y : List Nat) (v : Nat),
    (constantTimeLoop x y v).2 = min x.length y.length := by
  induction x with
  | nil =>
      intro y v
      simp [constantTimeLoop]
  | cons a xs ih =>
      intro y v
      cases y with
      | nil => simp [constantTimeLoop]
      | cons b ys =>
          rw [constantTimeLoop_cons]
          simp only [List.length_cons]
          rw [ih ys (v ||| (a ^^^ b)), Nat.succ_min_succ]

theorem constantTimeLoop_fst_zero (x : List Nat) : ∀ y : List Nat,
    x.length = y.length → ((constantTimeLoop x y 0).1 = 0 ↔ x = y) := by
  induction x with
  | nil =>
      intro y hy
      cases y with
      | nil => simp [constantTimeLoop]
      | cons b ys => simp at hy
  | cons a xs ih =>
      intro y hy
      cases y with
      | nil => simp at hy
      | cons b ys =>
          have hl : xs.length = ys.length := by simpa using hy
          rw [constantTimeLoop_cons]
          simp only []
          rw [constantTimeLoop_fst xs ys (0 ||| (a ^^^ b)), Nat.zero_or,
            natLorEqZero, Nat.xor_eq_zero, ih ys hl, List.cons.injEq]

theorem constantTimeCompare_fst (x y : List Nat) :
    (constantTimeCompare x y).1 =
      if x.length = y.length then
        (if (constantTimeLoop x y 0).1 = 0 then 1 else 0)
      else 0 := by
  unfold constantTimeCompare
  by_cases h : x.length = y.length <;> simp [h]

theorem constantTimeCompare_snd (x y : List Nat) :
    (constantTimeCompare x y).2 =
      if x.length = y.length then x.length else 0 := by
  unfold constantTimeCompare
  by_cases h : x.length = y.length
  · rw [if_pos h, if_pos h]
    show (constantTimeLoop x y 0).2 = x.length
    rw [constantTimeLoop_snd, h, Nat.min_self]
  · rw [if_neg h, if_neg h]

theorem constantTimeCompare_fst_eq_one (x y : List Nat) :
    ((constantTimeCompare x y).1 = 1 ↔ x = y) := by
  rw [constantTimeCompare_fst]
  by_cases h : x.length = y.length
  · rw [if_pos h]
    by_cases hz : (constantTimeLoop x y 0).1 = 0
    · rw [if_pos hz]
      exact iff_of_true rfl ((constantTimeLoop_fst_zero x y h).mp hz)
    · rw [if_neg hz]
      refine iff_of_false (by norm_num) fun hxy => hz ?_
      exact (constantTimeLoop_fst_zero x y h).mpr hxy
  · rw [if_neg h]
    refine iff_of_false (by norm_num) fun hxy => h (by rw [hxy])

theorem credentialsMatch_true_iff (u p : List Nat) (cfg : BasicAuthConfig) :
    credentialsMatch u p cfg = true ↔ (u = cfg.username ∧ p = cfg.password) := by
  unfold credentialsMatch
  rw [Bool.and_eq_true, beq_iff_eq, beq_iff_eq,
    constantTimeCompare_fst_eq_one, constantTimeCompare_fst_eq_one]

/-- C9: the instrumented `subtle.ConstantTimeCompare` cost (number of byte
steps) of each credential field depends only on the probe's length — two
probes of equal length cost the same against the expected value no matter
where their first mismatching byte sits — and `credentialsMatch` holds
exactly on full byte equality of both fields, so the comparison is not a
short-circuiting prefix equality. -/
theorem credentialsMatch_constant_time (cfg : BasicAuthConfig)
    (u u2 p p2 : List Nat) (hu : u.length = u2.length)
    (hp : p.length = p2.length) :
    ((constantTimeCompare u cfg.username).2 =
        (constantTimeCompare u2 cfg.username).2 ∧
     (constantTimeCompare p cfg.password).2 =
        (constantTimeCompare p2 cfg.password).2) ∧
    (credentialsMatch u p cfg = true ↔ (u = cfg.username ∧ p = cfg.password)) := by
  refine ⟨⟨?_, ?_⟩, credentialsMatch_true_iff u p cfg⟩
  · rw [constantTimeCompare_snd, constantTimeCompare_snd, hu]
  · rw [constantTimeCompare_snd, constantTimeCompare_snd, hp]

/-- The demo credentials `("user", "pass")` as byte lists. -/
def authCfgSample : BasicAuthConfig :=
  { enabled := true, username := [117, 115, 101, 114], password := [112, 97, 115, 115] }

/-- Witness for C9: probes mismatching at the first byte and at the last
byte cost the same against `"user"`/`"pass"`. -/
theorem credentialsMatch_constant_time_witness :
    ((constantTimeCompare [120, 115, 101, 114] authCfgSample.username).2 =
        (constantTimeCompare [117, 115, 101, 120] authCfgSample.username).2 ∧
     (constantTimeCompare [113, 97, 115, 115] authCfgSample.password).2 =
        (constantTimeCompare [112, 97, 115, 116] authCfgSample.password).2) ∧
    (credentialsMatch [120, 115, 101, 114] [113, 97, 115, 115] authCfgSample = true ↔
      ([120, 115, 101, 114] = authCfgSample.username ∧
       [113, 97, 115, 115] = authCfgSample.password)) :=
  credentialsMatch_constant_time authCfgSample [120, 115, 101, 114] [117, 115, 101, 120]
    [113, 97, 115, 115] [112, 97, 115, 116] rfl rfl

/-- C7: `validateBasicAuth` succeeds exactly when an authorization value
is present, it starts with `"Basic "`, the remainder base64-decodes, the
decoded bytes contain a colon, and the split at the *first* colon yields
exactly the configured username and password (a password containing
further colons is compared in full).  Every other case is an ordinary
error value — the embedding is a total function into `Except`, so no
input can make it panic. -/
theorem validateBasicAuth_characterization (hs : List (List Nat))
    (decode : List Nat → Option (List Nat)) (cfg : BasicAuthConfig) :
    validateBasicAuth hs decode cfg = .ok () ↔
      basicAuthSpecAccepts hs decode cfg := by
  cases hs with
  | nil =>
      simp [validateBasicAuth, basicAuthSpecAccepts]
  | cons h rest =>
      constructor
      · intro hok
        unfold validateBasicAuth at hok
        dsimp only [] at hok
        by_cases hpre : basicTagBytes.isPrefixOf h
        · rw [if_pos hpre] at hok
          cases hdec : decode (h.drop basicTagBytes.length) with
          | none =>
              rw [hdec] at hok
              simp at hok
          | some d =>
              rw [hdec] at hok
              dsimp only [] at hok
              cases hsplit : splitFirstColon d with
              | none =>
                  rw [hsplit] at hok
                  simp at hok
              | some up =>
                  obtain ⟨u0, p0⟩ := up
                  rw [hsplit] at hok
                  dsimp only [] at hok
                  by_cases hcm : credentialsMatch u0 p0 cfg
                  · have hup := (credentialsMatch_true_iff u0 p0 cfg).mp hcm
                    unfold splitFirstColon at hsplit
                    by_cases hcon : d.contains 58
                    · rw [if_pos hcon] at hsplit
                      injection hsplit with hsp
                      have h1 : d.takeWhile (fun b => b != 58) = u0 :=
                        congrArg Prod.fst hsp
                      have h2 : (d.dropWhile (fun b => b != 58)).tail = p0 :=
                        congrArg Prod.snd hsp
                      refine ⟨h, rest, rfl, hpre, d, hdec, hcon, ?_, ?_⟩
                      · rw [h1]
                        exact hup.1
                      · rw [h2]
                        exact hup.2
                    · rw [if_neg hcon] at hsplit
                      simp at hsplit
                  · rw [if_neg hcm] at hok
                    simp at hok
        · rw [if_neg hpre] at hok
          simp at hok
      · rintro ⟨header, r2, heq, hpre, d, hdec, hcon, hu, hp⟩
        injection heq with h1 h2
        subst h1
        unfold validateBasicAuth
        dsimp only []
        rw [if_pos hpre]
        have hdec2 : decode (h.drop basicTagBytes.length) = some d := hdec
        rw [hdec2]
        dsimp only []
        have hsp : splitFirstColon d =
            some (d.takeWhile (fun b => b != 58),
              (d.dropWhile (fun b => b != 58)).tail) := by
          unfold splitFirstColon
          rw [if_pos hcon]
        rw [hsp]
        dsimp only []
        rw [if_pos ((credentialsMatch_true_iff _ _ cfg).mpr ⟨hu, hp⟩)]

/-- C4: `validateUUIDv7` accepts exactly the non-empty 16-byte values
whose byte 6 has high nibble 7 and whose byte 8 has top two bits `10`,
and every rejection carries the offending field's name.  In particular the
16-byte all-zero identifier is rejected (version 0) and the same bytes
with byte 6 = `0x70`, byte 8 = `0x80` are accepted — see the witness. -/
theorem validateUUIDv7_characterization (data : List Nat) (f : String) :
    ((validateUUIDv7 data f).isOk = true ↔
      (data ≠ [] ∧ data.length = 16 ∧
        (data.getD 6 0 &&& 0xf0) >>> 4 = 7 ∧
        (data.getD 8 0 &&& 0xc0) >>> 6 = 2)) ∧
    (∀ e, validateUUIDv7 data f = .error e → e.1 = f) := by
  constructor
  · unfold validateUUIDv7
    by_cases h0 : data.length = 0
    · have hnil : data = [] := List.length_eq_zero.mp h0
      subst hnil
      rw [if_pos h0]
      exact iff_of_false (fun h => Bool.noConfusion h) (fun hc => hc.1 rfl)
    · rw [if_neg h0]
      have hne : data ≠ [] := by
        intro hh
        subst hh
        exact h0 rfl
      by_cases h16 : data.length = 16
      · rw [if_neg (not_ne_iff.mpr h16)]
        by_cases h7 : (data.getD 6 0 &&& 0xf0) >>> 4 = 7
        · rw [if_neg (not_ne_iff.mpr h7)]
          by_cases hv : (data.getD 8 0 &&& 0xc0) >>> 6 = 2
          · rw [if_neg (not_ne_iff.mpr hv)]
            exact iff_of_true rfl ⟨hne, h16, h7, hv⟩
          · rw [if_pos hv]
            exact iff_of_false (fun h => Bool.noConfusion h) (fun hc => hv hc.2.2.2)
        · rw [if_pos h7]
          exact iff_of_false (fun h => Bool.noConfusion h) (fun hc => h7 hc.2.2.1)
      · rw [if_pos h16]
        exact iff_of_false (fun h => Bool.noConfusion h) (fun hc => h16 hc.2.1)
  · intro e he
    unfold validateUUIDv7 at he
    split at he
    · injection he with hh
      rw [← hh]
    · split at he
      · injection he with hh
        rw [← hh]
      · dsimp only [] at he
        split at he
        · injection he with hh
          rw [← hh]
        · split at he
          · injection he with hh
            rw [← hh]
          · simp at he

/-- Witness for C4: the all-zero 16-byte value is rejected, the value with
byte 6 = `0x70` and byte 8 = `0x80` is accepted, and the rejection names
the checked field. -/
theorem validateUUIDv7_characterization_witness :
    (validateUUIDv7 zeros16 "installation_id").isOk = false ∧
    (validateUUIDv7 goodUuidBytes "journey_id").isOk = true ∧
    ("installation_id", UuidErrKind.wrongVersion 0).1 = "installation_id" := by
  refine ⟨?_, ?_, ?_⟩
  · refine Bool.eq_false_iff.mpr fun hok => ?_
    have h := (validateUUIDv7_characterization zeros16 "installation_id").1.mp hok
    exact absurd h.2.2.1 (by decide)
  · exact (validateUUIDv7_characterization goodUuidBytes "journey_id").1.mpr
      ⟨by decide, by decide, by decide, by decide⟩
  · exact (validateUUIDv7_characterization zeros16 "installation_id").2
      ("installation_id", UuidErrKind.wrongVersion 0) rfl

/-! ## Sender lemmas -/

theorem processLogEntries_cons_big (mOk : Doc → Bool) (aErr : String → Doc → Bool)
    (cfg : Config) (md : ClientMetadata) (mc : Int) (e : LogEntry) (rest : List LogEntry)
    (he : (e.context.length : Int) > mc) :
    processLogEntries mOk aErr cfg md mc (e :: rest) =
      (.error (.invalidArgument (.contextTooLarge e.context.length mc)),
       [], [.warnContextTooLarge]) := by
  unfold processLogEntries
  rw [if_pos he]

theorem processLogEntries_cons_small (mOk : Doc → Bool) (aErr : String → Doc → Bool)
    (cfg : Config) (md : ClientMetadata) (mc : Int) (e : LogEntry) (rest : List LogEntry)
    (he : ¬ (e.context.length : Int) > mc) :
    processLogEntries mOk aErr cfg md mc (e :: rest) =
      ((processLogEntries mOk aErr cfg md mc rest).1,
       (indexAsync mOk aErr cfg.elastic.indexLogs (logDocument md e)).1 ++
         (processLogEntries mOk aErr cfg md mc rest).2.1,
       (indexAsync mOk aErr cfg.elastic.indexLogs (logDocument md e)).2 ++
         (processLogEntries mOk aErr cfg md mc rest).2.2) := by
  rcases hrest : processLogEntries mOk aErr cfg md mc rest with ⟨res, items2, evs2⟩
  rcases hidx : indexAsync mOk aErr cfg.elastic.indexLogs (logDocument md e) with ⟨items, evs⟩
  simp [processLogEntries, he, hrest, hidx]

theorem processLogEntries_all_ok (mOk : Doc → Bool) (aErr : String → Doc → Bool)
    (cfg : Config) (md : ClientMetadata) (mc : Int) :
    ∀ entries : List LogEntry,
      (∀ e ∈ entries, ¬ ((e.context.length : Int) > mc)) →
      (processLogEntries mOk aErr cfg md mc entries).1 = .ok () := by
  intro entries
  induction entries with
  | nil =>
      intro _
      rfl
  | cons e rest ih =>
      intro hall
      rw [processLogEntries_cons_small mOk aErr cfg md mc e rest
        (hall e (List.mem_cons_self e rest))]
      exact ih fun x hx => hall x (List.mem_cons_of_mem e hx)

theorem processLogEntries_shape (mOk : Doc → Bool) (aErr : String → Doc → Bool)
    (cfg : Config) (md : ClientMetadata) (mc : Int) :
    ∀ entries : List LogEntry,
      (processLogEntries mOk aErr cfg md mc entries).1 = .ok () ∨
      ∃ c, (processLogEntries mOk aErr cfg md mc entries).1 =
        .error (.invalidArgument (.contextTooLarge c mc)) := by
  intro entries
  induction entries with
  | nil => exact Or.inl rfl
  | cons e rest ih =>
      by_cases he : (e.context.length : Int) > mc
      · right
        refine ⟨e.context.length, ?_⟩
        rw [processLogEntries_cons_big mOk aErr cfg md mc e rest he]
      · rw [processLogEntries_cons_small mOk aErr cfg md mc e rest he]
        exact ih

theorem processLogEntries_err_char (mOk : Doc → Bool) (aErr : String → Doc → Bool)
    (cfg : Config) (md : ClientMetadata) (mc : Int) :
    ∀ (entries : List LogEntry) (e0 : LogEntry) (rest2 : List LogEntry),
      entries.dropWhile (fun e => !decide ((e.context.length : Int) > mc)) = e0 :: rest2 →
      (processLogEntries mOk aErr cfg md mc entries).1 =
        .error (.invalidArgument (.contextTooLarge e0.context.length mc)) ∧
      (processLogEntries mOk aErr cfg md mc entries).2.1 =
        (processLogEntries mOk aErr cfg md mc
          (entries.takeWhile (fun e => !decide ((e.context.length : Int) > mc)))).2.1 := by
  intro entries
  induction entries with
  | nil =>
      intro e0 rest2 h
      simp at h
  | cons e rest ih =>
      intro e0 rest2 hdrop
      by_cases he : (e.context.length : Int) > mc
      · have hpe : (!decide ((e.context.length : Int) > mc)) = false := by simp [he]
        rw [List.dropWhile_cons] at hdrop
        rw [hpe] at hdrop
        simp only [Bool.false_eq_true, if_false] at hdrop
        injection hdrop with h1 h2
        subst h1
        constructor
        · rw [processLogEntries_cons_big mOk aErr cfg md mc e rest he]
        · rw [processLogEntries_cons_big mOk aErr cfg md mc e rest he]
          rw [List.takeWhile_cons, hpe]
          simp [processLogEntries]
      · have hpe : (!decide ((e.context.length : Int) > mc)) = true := by simp [he]
        rw [List.dropWhile_cons, hpe] at hdrop
        simp only [if_true] at hdrop
        obtain ⟨h1, h2⟩ := ih e0 rest2 hdrop
        constructor
        · rw [processLogEntries_cons_small mOk aErr cfg md mc e rest he]
          exact h1
        · rw [processLogEntries_cons_small mOk aErr cfg md mc e rest he]
          rw [List.takeWhile_cons, hpe]
          simp only [if_true]
          rw [processLogEntries_cons_small mOk aErr cfg md mc e
            (rest.takeWhile (fun e => !decide ((e.context.length : Int) > mc))) he]
          show _ ++ _ = _ ++ _
          rw [h2]

theorem sendTelemetry_size_exceeded (protoSize : TelemetryPacket → Int) (cfg : Config)
    (mOk : Doc → Bool) (aErr : String → Doc → Bool) (p : TelemetryPacket)
    (md : ClientMetadata) (hmd : p.metadata = some md)
    (hsz : protoSize p > effectiveMaxPacketSize cfg) :
    SendTelemetry protoSize cfg mOk aErr (some p) =
      (.error (.invalidArgument
         (.packetTooLarge (protoSize p) (effectiveMaxPacketSize cfg))),
       [], [.warnPacketSize]) := by
  unfold effectiveMaxPacketSize at hsz ⊢
  unfold SendTelemetry
  dsimp only []
  rw [hmd]
  dsimp only []
  rw [show validatePacketSize (protoSize p)
      (if cfg.server.maxPacketSizeBytes = 0 then 1500 else cfg.server.maxPacketSizeBytes) =
      .error (protoSize p,
        if cfg.server.maxPacketSizeBytes = 0 then 1500 else cfg.server.maxPacketSizeBytes) from by
    unfold validatePacketSize
    rw [if_pos hsz]]

theorem sendTelemetry_installation_err (protoSize : TelemetryPacket → Int) (cfg : Config)
    (mOk : Doc → Bool) (aErr : String → Doc → Bool) (p : TelemetryPacket)
    (md : ClientMetadata) (e1 : String × UuidErrKind)
    (hmd : p.metadata = some md)
    (hsz : ¬ protoSize p > effectiveMaxPacketSize cfg)
    (hu1 : validateUUIDv7 md.installationId "installation_id" = .error e1) :
    SendTelemetry protoSize cfg mOk aErr (some p) =
      (.error (.invalidArgument (.uuidInvalid e1.1 e1.2)), [],
       [.warnInvalidInstallationId]) := by
  unfold effectiveMaxPacketSize at hsz
  unfold SendTelemetry
  dsimp only []
  rw [hmd]
  dsimp only []
  rw [show validatePacketSize (protoSize p)
      (if cfg.server.maxPacketSizeBytes = 0 then 1500 else cfg.server.maxPacketSizeBytes) =
      .ok () from by
    unfold validatePacketSize
    rw [if_neg hsz]]
  dsimp only []
  rw [hu1]

theorem sendTelemetry_journey_err (protoSize : TelemetryPacket → Int) (cfg : Config)
    (mOk : Doc → Bool) (aErr : String → Doc → Bool) (p : TelemetryPacket)
    (md : ClientMetadata) (e2 : String × UuidErrKind)
    (hmd : p.metadata = some md)
    (hsz : ¬ protoSize p > effectiveMaxPacketSize cfg)
    (hu1 : validateUUIDv7 md.installationId "installation_id" = .ok ())
    (hu2 : validateUUIDv7 md.journeyId "journey_id" = .error e2) :
    SendTelemetry protoSize cfg mOk aErr (some p) =
      (.error (.invalidArgument (.uuidInvalid e2.1 e2.2)), [],
       [.warnInvalidJourneyId]) := by
  unfold effectiveMaxPacketSize at hsz
  unfold SendTelemetry
  dsimp only []
  rw [hmd]
  dsimp only []
  rw [show validatePacketSize (protoSize p)
      (if cfg.server.maxPacketSizeBytes = 0 then 1500 else cfg.server.maxPacketSizeBytes) =
      .ok () from by
    unfold validatePacketSize
    rw [if_neg hsz]]
  dsimp only []
  rw [hu1]
  dsimp only []
  rw [hu2]

theorem sendTelemetry_valid_nolog (protoSize : TelemetryPacket → Int) (cfg : Config)
    (mOk : Doc → Bool) (aErr : String → Doc → Bool) (p : TelemetryPacket)
    (md : ClientMetadata)
    (hmd : p.metadata = some md)
    (hsz : ¬ protoSize p > effectiveMaxPacketSize cfg)
    (hu1 : validateUUIDv7 md.installationId "installation_id" = .ok ())
    (hu2 : validateUUIDv7 md.journeyId "journey_id" = .ok ())
    (hlogs : p.logs = none) :
    SendTelemetry protoSize cfg mOk aErr (some p) =
      (.ok ⟨true, "Accepted"⟩,
       (metricFanOut mOk aErr cfg md p.metrics).1,
       (metricFanOut mOk aErr cfg md p.metrics).2) := by
  unfold effectiveMaxPacketSize at hsz
  unfold SendTelemetry
  dsimp only []
  rw [hmd]
  dsimp only []
  rw [show validatePacketSize (protoSize p)
      (if cfg.server.maxPacketSizeBytes = 0 then 1500 else cfg.server.maxPacketSizeBytes) =
      .ok () from by
    unfold validatePacketSize
    rw [if_neg hsz]]
  dsimp only []
  rw [hu1]
  dsimp only []
  rw [hu2]
  dsimp only []
  rw [hlogs]

theorem sendTelemetry_valid_logs (protoSize : TelemetryPacket → Int) (cfg : Config)
    (mOk : Doc → Bool) (aErr : String → Doc → Bool) (p : TelemetryPacket)
    (md : ClientMetadata) (batch : LogBatch)
    (hmd : p.metadata = some md)
    (hsz : ¬ protoSize p > effectiveMaxPacketSize cfg)
    (hu1 : validateUUIDv7 md.installationId "installation_id" = .ok ())
    (hu2 : validateUUIDv7 md.journeyId "journey_id" = .ok ())
    (hlogs : p.logs = some batch) :
    SendTelemetry protoSize cfg mOk aErr (some p) =
      ((match (processLogEntries mOk aErr cfg md (effectiveMaxContextAttrs cfg)
            batch.entries).1 with
        | .error err => .error err
        | .ok _ => .ok ⟨true, "Accepted"⟩),
       (metricFanOut mOk aErr cfg md p.metrics).1 ++
         (processLogEntries mOk aErr cfg md (effectiveMaxContextAttrs cfg)
           batch.entries).2.1,
       (metricFanOut mOk aErr cfg md p.metrics).2 ++
         (processLogEntries mOk aErr cfg md (effectiveMaxContextAttrs cfg)
           batch.entries).2.2) := by
  unfold effectiveMaxPacketSize at hsz
  unfold effectiveMaxContextAttrs
  unfold SendTelemetry
  dsimp only []
  rw [hmd]
  dsimp only []
  rw [show validatePacketSize (protoSize p)
      (if cfg.server.maxPacketSizeBytes = 0 then 1500 else cfg.server.maxPacketSizeBytes) =
      .ok () from by
    unfold validatePacketSize
    rw [if_neg hsz]]
  dsimp only []
  rw [hu1]
  dsimp only []
  rw [hu2]
  dsimp only []
  rw [hlogs]
  dsimp only []
  rcases hpl : processLogEntries mOk aErr cfg md
      (if cfg.server.maxContextAttrs = 0 then 6 else cfg.server.maxContextAttrs)
      batch.entries with ⟨res, items, evs⟩
  rcases hmf : metricFanOut mOk aErr cfg md p.metrics with ⟨mitems, mevs⟩
  cases res <;> rfl

/-- C5: a packet that passes every validation check is acknowledged with
`{success: true, message: "Accepted"}` and no error, for *every* behavior
of `json.Marshal` and of `bulkIndexer.Add` — per-document indexing
failures are only logged at the sink boundary and never reach the
acknowledgment. -/
theorem sendTelemetry_ack_independent_of_indexing
    (protoSize : TelemetryPacket → Int) (cfg : Config) (p : TelemetryPacket)
    (hvalid : packetValidB protoSize cfg p = true) :
    ∀ (marshalOk : Doc → Bool) (addErr : String → Doc → Bool),
      (SendTelemetry protoSize cfg marshalOk addErr (some p)).1 =
        .ok ⟨true, "Accepted"⟩ := by
  intro mOk aErr
  unfold packetValidB at hvalid
  cases hmd : p.metadata with
  | none =>
      rw [hmd] at hvalid
      simp at hvalid
  | some md =>
      rw [hmd] at hvalid
      dsimp only [] at hvalid
      simp only [Bool.and_eq_true, decide_eq_true_eq] at hvalid
      obtain ⟨⟨⟨hsz, hok1⟩, hok2⟩, hlogsb⟩ := hvalid
      have hu1 : validateUUIDv7 md.installationId "installation_id" = .ok () := by
        cases hres : validateUUIDv7 md.installationId "installation_id" with
        | ok u => cases u; rfl
        | error e =>
            rw [hres] at hok1
            simp [Except.isOk, Except.toBool] at hok1
      have hu2 : validateUUIDv7 md.journeyId "journey_id" = .ok () := by
        cases hres : validateUUIDv7 md.journeyId "journey_id" with
        | ok u => cases u; rfl
        | error e =>
            rw [hres] at hok2
            simp [Except.isOk, Except.toBool] at hok2
      have hsz' : ¬ protoSize p > effectiveMaxPacketSize cfg := not_lt.mpr hsz
      cases hlogs : p.logs with
      | none =>
          rw [sendTelemetry_valid_nolog protoSize cfg mOk aErr p md hmd hsz' hu1 hu2 hlogs]
      | some batch =>
          rw [hlogs] at hlogsb
          dsimp only [] at hlogsb
          rw [sendTelemetry_valid_logs protoSize cfg mOk aErr p md batch hmd hsz' hu1 hu2 hlogs]
          have hall : ∀ e ∈ batch.entries,
              ¬ ((e.context.length : Int) > effectiveMaxContextAttrs cfg) := by
            intro e he
            have := List.all_eq_true.mp hlogsb e he
            simp only [decide_eq_true_eq] at this
            exact not_lt.mpr this
          rw [processLogEntries_all_ok mOk aErr cfg md (effectiveMaxContextAttrs cfg)
            batch.entries hall]

/-- Witness for C5: the sample valid packet is accepted under two very
different indexing behaviors (everything succeeds; marshal fails and Add
errors). -/
theorem sendTelemetry_ack_independent_of_indexing_witness :
    (SendTelemetry (fun _ => 100) cfgDefaults (fun _ => true) (fun _ _ => false)
        (some pktGood)).1 = .ok ⟨true, "Accepted"⟩ ∧
    (SendTelemetry (fun _ => 100) cfgDefaults (fun _ => false) (fun _ _ => true)
        (some pktGood)).1 = .ok ⟨true, "Accepted"⟩ := by
  have h := sendTelemetry_ack_independent_of_indexing (fun _ => 100) cfgDefaults pktGood
    (by decide)
  exact ⟨h (fun _ => true) (fun _ _ => false), h (fun _ => false) (fun _ _ => true)⟩

/-- C6: with metadata present, `SendTelemetry` rejects with an
invalid-argument error carrying the actual and maximum sizes exactly when
the abstracted `proto.Size` of the packet exceeds the effective maximum
(the configured value, or 1500 when that is 0); the check fires before the
identifier and context checks (the whole result — empty traces included —
is fixed by the size alone), and a packet at or below the maximum never
produces a size error. -/
theorem sendTelemetry_size_check_first
    (protoSize : TelemetryPacket → Int) (cfg : Config)
    (mOk : Doc → Bool) (aErr : String → Doc → Bool)
    (p : TelemetryPacket) (md : ClientMetadata) (hmd : p.metadata = some md) :
    (protoSize p > effectiveMaxPacketSize cfg →
       SendTelemetry protoSize cfg mOk aErr (some p) =
         (.error (.invalidArgument
            (.packetTooLarge (protoSize p) (effectiveMaxPacketSize cfg))),
          [], [.warnPacketSize])) ∧
    (protoSize p ≤ effectiveMaxPacketSize cfg →
       ∀ s m, (SendTelemetry protoSize cfg mOk aErr (some p)).1 ≠
         .error (.invalidArgument (.packetTooLarge s m))) := by
  constructor
  · intro hsz
    exact sendTelemetry_size_exceeded protoSize cfg mOk aErr p md hmd hsz
  · intro hsz s m
    have hsz' : ¬ protoSize p > effectiveMaxPacketSize cfg := not_lt.mpr hsz
    cases hu1 : validateUUIDv7 md.installationId "installation_id" with
    | error e1 =>
        rw [sendTelemetry_installation_err protoSize cfg mOk aErr p md e1 hmd hsz' hu1]
        simp
    | ok u =>
        cases u
        cases hu2 : validateUUIDv7 md.journeyId "journey_id" with
        | error e2 =>
            rw [sendTelemetry_journey_err protoSize cfg mOk aErr p md e2 hmd hsz' hu1 hu2]
            simp
        | ok u2 =>
            cases u2
            cases hlogs : p.logs with
            | none =>
                rw [sendTelemetry_valid_nolog protoSize cfg mOk aErr p md hmd hsz' hu1 hu2 hlogs]
                simp
            | some batch =>
                rw [sendTelemetry_valid_logs protoSize cfg mOk aErr p md batch hmd hsz' hu1 hu2 hlogs]
                rcases processLogEntries_shape mOk aErr cfg md
                    (effectiveMaxContextAttrs cfg) batch.entries with hok | ⟨c, herr⟩
                · rw [hok]
                  simp
                · rw [herr]
                  simp

/-- Witness for C6: with the default ceiling 1500, a size-2000 packet is
rejected with both sizes in the error and nothing enqueued, while the same
packet at size 100 never yields a size error. -/
theorem sendTelemetry_size_check_first_witness :
    SendTelemetry (fun _ => 2000) cfgDefaults (fun _ => true) (fun _ _ => false)
        (some pktGood) =
      (.error (.invalidArgument (.packetTooLarge 2000 1500)), [], [.warnPacketSize]) ∧
    (SendTelemetry (fun _ => 100) cfgDefaults (fun _ => true) (fun _ _ => false)
        (some pktGood)).1 ≠
      .error (.invalidArgument (.packetTooLarge 100 1500)) := by
  constructor
  · exact (sendTelemetry_size_check_first (fun _ => 2000) cfgDefaults (fun _ => true)
      (fun _ _ => false) pktGood mdGood rfl).1 (by decide)
  · exact (sendTelemetry_size_check_first (fun _ => 100) cfgDefaults (fun _ => true)
      (fun _ _ => false) pktGood mdGood rfl).2 (by decide) 100 1500

/-- C1, amended: when a packet passing the size and identifier checks has
a log entry whose context map exceeds the effective maximum (the
configured value, or 6 when that is 0), `SendTelemetry` rejects the whole
packet with an invalid-argument error reporting the first offending
entry's attribute count — but by that time every metric document and the
log documents of the entries preceding the first offender have already
been handed to the indexer; only the documents from the first offender on
are withheld.  A packet whose every log entry is within the maximum is not
rejected by this check.  (The original claim's "no document of that packet
is enqueued" is refuted by the counterexample.) -/
theorem sendTelemetry_context_gate_amended
    (protoSize : TelemetryPacket → Int) (cfg : Config)
    (mOk : Doc → Bool) (aErr : String → Doc → Bool)
    (p : TelemetryPacket) (md : ClientMetadata) (batch : LogBatch)
    (hmd : p.metadata = some md) (hlogs : p.logs = some batch)
    (hsz : ¬ protoSize p > effectiveMaxPacketSize cfg)
    (hu1 : validateUUIDv7 md.installationId "installation_id" = .ok ())
    (hu2 : validateUUIDv7 md.journeyId "journey_id" = .ok ()) :
    ((∃ e ∈ batch.entries,
        (e.context.length : Int) > effectiveMaxContextAttrs cfg) →
      ∃ e0 rest2,
        batch.entries.dropWhile
          (fun e => !decide ((e.context.length : Int) > effectiveMaxContextAttrs cfg)) =
            e0 :: rest2 ∧
        (SendTelemetry protoSize cfg mOk aErr (some p)).1 =
          .error (.invalidArgument
            (.contextTooLarge e0.context.length (effectiveMaxContextAttrs cfg))) ∧
        (SendTelemetry protoSize cfg mOk aErr (some p)).2.1 =
          (metricFanOut mOk aErr cfg md p.metrics).1 ++
            (processLogEntries mOk aErr cfg md (effectiveMaxContextAttrs cfg)
              (batch.entries.takeWhile
                (fun e => !decide
                  ((e.context.length : Int) > effectiveMaxContextAttrs cfg)))).2.1) ∧
    ((∀ e ∈ batch.entries,
        (e.context.length : Int) ≤ effectiveMaxContextAttrs cfg) →
      (SendTelemetry protoSize cfg mOk aErr (some p)).1 = .ok ⟨true, "Accepted"⟩) := by
  have hmain := sendTelemetry_valid_logs protoSize cfg mOk aErr p md batch hmd hsz hu1 hu2 hlogs
  constructor
  · intro hex
    cases hcase : batch.entries.dropWhile
        (fun e => !decide ((e.context.length : Int) > effectiveMaxContextAttrs cfg)) with
    | nil =>
        obtain ⟨e, hmem, hbig⟩ := hex
        have hp := List.dropWhile_eq_nil_iff.mp hcase e hmem
        simp only [Bool.not_eq_true', decide_eq_false_iff_not] at hp
        exact absurd hbig hp
    | cons e0 rest2 =>
        obtain ⟨h1, h2⟩ := processLogEntries_err_char mOk aErr cfg md
          (effectiveMaxContextAttrs cfg) batch.entries e0 rest2 hcase
        refine ⟨e0, rest2, rfl, ?_, ?_⟩
        · rw [hmain]
          simp only [h1]
        · rw [hmain]
          show (metricFanOut mOk aErr cfg md p.metrics).1 ++ _ = _
          rw [h2]
  · intro hall
    rw [hmain]
    rw [processLogEntries_all_ok mOk aErr cfg md (effectiveMaxContextAttrs cfg)
      batch.entries (fun e he => not_lt.mpr (hall e he))]

/-- C1 counterexample: a packet with one valid metric point and one log
entry carrying 7 context attributes (default ceiling 6) is rejected with
the invalid-argument context error, yet one document of that packet — the
metric document — has already been enqueued to the indexer, refuting "no
document of that packet is enqueued". -/
theorem sendTelemetry_context_partial_indexing_cex :
    (SendTelemetry (fun _ => 100) cfgDefaults (fun _ => true) (fun _ _ => false)
        (some pktOverCtx)).1 =
      .error (.invalidArgument (.contextTooLarge 7 6)) ∧
    (SendTelemetry (fun _ => 100) cfgDefaults (fun _ => true) (fun _ _ => false)
        (some pktOverCtx)).2.1.length = 1 := by
  constructor
  · rfl
  · rfl

/-- Witness for the amended C1: the over-limit packet yields exactly the
first-offender context error, and the within-limit packet is accepted. -/
theorem sendTelemetry_context_gate_amended_witness :
    (SendTelemetry (fun _ => 100) cfgDefaults (fun _ => true) (fun _ _ => false)
        (some pktOverCtx)).1 =
      .error (.invalidArgument
        (.contextTooLarge ((entryCtx 7).context.length : Int)
          (effectiveMaxContextAttrs cfgDefaults))) ∧
    (SendTelemetry (fun _ => 100) cfgDefaults (fun _ => true) (fun _ _ => false)
        (some pktGood)).1 = .ok ⟨true, "Accepted"⟩ := by
  constructor
  · have h := (sendTelemetry_context_gate_amended (fun _ => 100) cfgDefaults
      (fun _ => true) (fun _ _ => false) pktOverCtx mdGood ⟨[entryCtx 7]⟩
      rfl rfl (by decide) rfl rfl).1
      ⟨entryCtx 7, List.mem_singleton.mpr rfl, by decide⟩
    obtain ⟨e0, rest2, hdrop, herr, -⟩ := h
    have hlist : e0 :: rest2 = [entryCtx 7] := by
      rw [← hdrop]
      rfl
    injection hlist with he0 hr
    rw [he0] at herr
    exact herr
  · exact (sendTelemetry_context_gate_amended (fun _ => 100) cfgDefaults
      (fun _ => true) (fun _ _ => false) pktGood mdGood ⟨[entryCtx 3]⟩
      rfl rfl (by decide) rfl rfl).2
      (fun e he => by
        rcases List.mem_singleton.mp he with rfl
        decide)
